import Mathlib

/-!
Verification development for the mac-profile-sync sync engine.

Shallow embedding of the Go source: pure functions become Lean functions,
stateful methods become explicit state passing, Go machine integers become
Nat with explicit `% 2 ^ 32` where overflow matters, fallible code returns
Except/Option.  Filesystem and wall-clock inputs (os.Stat, os.ReadFile,
time.Now) are passed in as explicit arguments: a finite association list
models the disk, an Int models a time instant.

The file is laid out with all definitions first, then all theorems.
-/

namespace MPS

/-! ## Definitions: message codec — src/internal/network/protocol.go -/

/-- Protocol constant: 64 MiB maximum frame size. -/
def MaxMessageSize : Nat := 64 * 1024 * 1024

/-- MessageType constants (`iota + 1` in the source). -/
def MsgHello : Nat := 1
def MsgHelloAck : Nat := 2
def MsgPairRequest : Nat := 3
def MsgPairResponse : Nat := 4
def MsgFileList : Nat := 5
def MsgFileRequest : Nat := 6
def MsgFileData : Nat := 7
def MsgFileDelete : Nat := 8
def MsgSyncComplete : Nat := 9
def MsgPing : Nat := 10
def MsgPong : Nat := 11
def MsgError : Nat := 12

/-- The base network message: `{type, timestamp, payload}`.  The payload is a
raw byte list; the timestamp an abstract instant. -/
structure Message where
  type : Nat
  timestamp : Int
  payload : List Nat
deriving DecidableEq

/-- Model of `binary.BigEndian.PutUint32`: the 4-byte big-endian rendering of a 32-bit
value. -/
def putUint32BE (n : Nat) : List Nat :=
  [n / 2 ^ 24 % 256, n / 2 ^ 16 % 256, n / 2 ^ 8 % 256, n % 256]

/-- Model of `binary.BigEndian.Uint32`: decode 4 bytes, big-endian. -/
def beUint32 (b0 b1 b2 b3 : Nat) : Nat :=
  ((b0 * 256 + b1) * 256 + b2) * 256 + b3

/-- Model of `WriteMessage` (protocol.go lines 131-156), abstracted over the JSON
serializer `marshal` (encoding/json is library code).  `uint32(len(data))`
is `data.length % 2 ^ 32`; the oversize check `length > MaxMessageSize` is on
that truncated value, exactly as in the source.  The successful result is the
byte sequence put on the wire: 4-byte big-endian length prefix, then the
payload bytes. -/
def WriteMessage (marshal : Message → List Nat) (msg : Message) :
    Except String (List Nat) :=
  let data := marshal msg
  let length := data.length % 2 ^ 32
  if MaxMessageSize < length then .error "message too large"
  else .ok (putUint32BE length ++ data)

/-- Model of `ReadMessage` (protocol.go lines 159-184), abstracted over the JSON
deserializer `unmarshal`.  Reads a 4-byte length prefix from the byte stream,
rejects declared lengths above `MaxMessageSize`, reads exactly that many
payload bytes (`io.ReadFull`, failing when the stream is short), and decodes.
Returns the message together with the unread remainder of the stream. -/
def ReadMessage (unmarshal : List Nat → Option Message) (stream : List Nat) :
    Except String (Message × List Nat) :=
  match stream with
  | b0 :: b1 :: b2 :: b3 :: rest =>
    let length := beUint32 b0 b1 b2 b3
    if MaxMessageSize < length then .error "message too large"
    else if rest.length < length then .error "failed to read message"
    else
      match unmarshal (rest.take length) with
      | some msg => .ok (msg, rest.drop length)
      | none => .error "failed to unmarshal message"
  | _ => .error "failed to read length"

/-- Model of `Connection.readLoop` (protocol.go lines 455-486), modelled over the
sequence of `ReadMessage` outcomes the connection produces.  A read error
returns from (terminates) the loop; a Ping is answered inline and not
forwarded; every other message is forwarded to the server's message handler.
The result is the list of forwarded messages, in order. -/
def readLoop : List (Except String Message) → List Message
  | [] => []
  | .error _ :: _ => []
  | .ok msg :: rest =>
    if msg.type = MsgPing then readLoop rest else msg :: readLoop rest

/-- A concrete message used for closed instantiations. -/
def msg0 : Message := { type := MsgHello, timestamp := 0, payload := [] }

/-- A serializer producing a 2 ^ 32-byte encoding, standing for
`json.Marshal` on a message with a multi-gigabyte payload. -/
def marshalBig : Message → List Nat := fun _ => List.replicate (2 ^ 32) 0

/-! ## Definitions: state file naming — StateStore.Save and hashString -/

/-- Model of `hashString`: 32-bit FNV-1a over the bytes of a Go string (offset basis
2166136261, prime 16777619, arithmetic in uint32).  Go strings are byte
sequences, so the path is modelled as its byte list. -/
def hashString (s : List Nat) : Nat :=
  s.foldl (fun h b => ((h ^^^ b) * 16777619) % 2 ^ 32) 2166136261

/-- Model of `fmt.Sprintf "%x"` on a `uint32`: lowercase hexadecimal digits, **no
zero padding**, rendering 0 as "0".  Eight units of fuel cover every 32-bit
value.  `Nat.digitChar` yields the lowercase digits 0-9a-f. -/
def hexDigitsAux : Nat → Nat → List Char
  | 0, _ => []
  | fuel + 1, n =>
    if n = 0 then []
    else hexDigitsAux fuel (n / 16) ++ [Nat.digitChar (n % 16)]

/-- The `%x` rendering of a uint32 value. -/
def fmtHexUint32 (n : Nat) : String :=
  if n = 0 then "0" else String.mk (hexDigitsAux 8 n)

/-- Model of `StateStore.Save` / `ClearFolder` file naming:
`fmt.Sprintf("%x.json", hashString(path))`. -/
def stateFileName (path : List Nat) : String :=
  fmtHexUint32 (hashString path) ++ ".json"

/-- The sixteen lowercase hexadecimal digit characters. -/
def hexCharset : List Char := (List.range 16).map Nat.digitChar

/-! ## Definitions: configuration — internal/config (config.go) -/

/-- Model of `FolderConfig`: a folder registered for sync. -/
structure FolderConfig where
  path : String
  enabled : Bool
deriving DecidableEq

/-- The configuration fields the sync engine consumes. -/
structure Config where
  deviceName : String
  folders : List FolderConfig
  syncDirection : String
  conflictResolution : String
deriving DecidableEq

/-- Model of `SyncDirection` values. -/
inductive SyncDirection
  | bidirectional
  | send_only
  | receive_only
deriving DecidableEq, BEq

/-- Model of `ConflictStrategy` values. -/
inductive ConflictStrategy
  | newest_wins
  | keep_both
  | prompt
deriving DecidableEq, BEq

/-- Model of `Config.GetSyncDirection`: unknown strings default to bidirectional. -/
def Config.GetSyncDirection (c : Config) : SyncDirection :=
  match c.syncDirection with
  | "send_only" => .send_only
  | "receive_only" => .receive_only
  | "bidirectional" => .bidirectional
  | _ => .bidirectional

/-- Model of `Config.CanSend`. -/
def Config.CanSend (c : Config) : Bool :=
  c.GetSyncDirection == .bidirectional || c.GetSyncDirection == .send_only

/-- Model of `Config.CanReceive`. -/
def Config.CanReceive (c : Config) : Bool :=
  c.GetSyncDirection == .bidirectional || c.GetSyncDirection == .receive_only

/-- Model of `Config.GetConflictStrategy`: unknown strings default to newest-wins. -/
def Config.GetConflictStrategy (c : Config) : ConflictStrategy :=
  match c.conflictResolution with
  | "newest_wins" => .newest_wins
  | "keep_both" => .keep_both
  | "prompt" => .prompt
  | _ => .newest_wins

/-! ## Definitions: path helpers — path/filepath as the engine uses it -/

/-- Model of `filepath.Join` for the two-argument calls in the engine (path cleaning
is not relevant to the properties proved here). -/
def filepathJoin (dir name : String) : String := dir ++ "/" ++ name

/-- Split a character list at every '/' (the components of a path),
mirroring `strings.Split` on "/". -/
def splitSlash : List Char → List (List Char)
  | [] => [[]]
  | c :: rest =>
    match splitSlash rest with
    | [] => if c = '/' then [[], []] else [[c]]
    | h :: t => if c = '/' then [] :: h :: t else (c :: h) :: t

/-- Rejoin path components with '/'. -/
def joinSlash : List (List Char) → List Char
  | [] => []
  | [l] => l
  | l :: rest => l ++ '/' :: joinSlash rest

/-- Model of `filepath.Base`: the final nonempty slash-separated element of the
path ("." for the empty path, "/" when the path is all slashes). -/
def filepathBase (p : String) : String :=
  match ((splitSlash p.data).filter (fun l => l ≠ [])).getLast? with
  | some s => String.mk s
  | none => if p = "" then "." else "/"

/-- Model of `filepath.Dir`: everything before the final slash ("." when none). -/
def filepathDir (p : String) : String :=
  match (splitSlash p.data).dropLast with
  | [] => "."
  | parts => String.mk (joinSlash parts)

/-- Scan a reversed character list for the extension: stops at the last dot
of the final element, as `filepath.Ext` does. -/
def extAux : List Char → List Char → String
  | [], _ => ""
  | c :: rest, acc =>
    if c = '.' then String.mk ('.' :: acc)
    else if c = '/' then ""
    else extAux rest (c :: acc)

/-- Model of `filepath.Ext`. -/
def filepathExt (p : String) : String := extAux p.data.reverse []

/-- Model of `filepath.Rel(base, path)` for paths under `base`; the source falls back
to `path` itself when Rel fails. -/
def relOf (basePath path : String) : String :=
  if (basePath ++ "/").isPrefixOf path
  then path.drop (basePath.length + 1)
  else path

/-- Model of `fileutil.GenerateConflictName` (fileutil.go lines 192-202); the
`time.Now().Format("20060102_150405")` timestamp string is passed in. -/
def GenerateConflictName (originalPath deviceName tsStr : String) : String :=
  let dir := filepathDir originalPath
  let ext := filepathExt originalPath
  let base := filepathBase originalPath
  let name := base.dropRight ext.length
  filepathJoin dir (name ++ "_" ++ deviceName ++ "_conflict_" ++ tsStr ++ ext)

/-! ## Definitions: association-list primitives for Go maps

Go maps have unique keys; they are modelled as association lists, with
uniqueness of keys a hypothesis where a theorem needs it. -/

/-- Map lookup. -/
def alookup {α : Type} (k : String) : List (String × α) → Option α
  | [] => none
  | (k', v) :: rest => if k' = k then some v else alookup k rest

/-- Map assignment `m[k] = v`. -/
def aupdate {α : Type} (k : String) (v : α) :
    List (String × α) → List (String × α)
  | [] => [(k, v)]
  | (k', v') :: rest =>
    if k' = k then (k, v) :: rest else (k', v') :: aupdate k v rest

/-- Map deletion `delete(m, k)`. -/
def aerase {α : Type} (k : String) : List (String × α) → List (String × α)
  | [] => []
  | (k', v') :: rest => if k' = k then rest else (k', v') :: aerase k rest

/-! ## Definitions: state store — StateStore (sync state), value-level view -/

/-- Model of `FileState`: the baseline record for one file. -/
structure FileState where
  relPath : String
  hash : String
  size : Int
  modTime : Int
  permission : Nat
  syncedAt : Int
  syncedFrom : String
deriving DecidableEq

/-- Model of `FolderState`: the per-folder aggregate. -/
structure FolderState where
  path : String
  files : List (String × FileState)
  updatedAt : Int
deriving DecidableEq

/-- Model of `StateStore`: folder path → FolderState.  This value-level view models
the store as the engine observes it through its methods; the pointer-level
view used for the aliasing claim lives in namespace `MPSRef`. -/
structure StateStore where
  folders : List (String × FolderState)
deriving DecidableEq

/-- Model of `StateStore.GetFileState`. -/
def StateStore.GetFileState (s : StateStore) (folderPath relPath : String) :
    Option FileState :=
  match alookup folderPath s.folders with
  | none => none
  | some fs => alookup relPath fs.files

/-- Model of `StateStore.UpdateFileState`; `time.Now()` is the `now` argument. -/
def StateStore.UpdateFileState (s : StateStore) (folderPath : String)
    (st : FileState) (now : Int) : StateStore :=
  match alookup folderPath s.folders with
  | none =>
    { folders := aupdate folderPath
        { path := folderPath, files := [(st.relPath, st)], updatedAt := now }
        s.folders }
  | some fs =>
    { folders := aupdate folderPath
        { fs with files := aupdate st.relPath st fs.files, updatedAt := now }
        s.folders }

/-- Model of `StateStore.RemoveFileState`; also stamps `UpdatedAt` even when the
record was absent. -/
def StateStore.RemoveFileState (s : StateStore) (folderPath relPath : String)
    (now : Int) : StateStore :=
  match alookup folderPath s.folders with
  | none => s
  | some fs =>
    { folders := aupdate folderPath
        { fs with files := aerase relPath fs.files, updatedAt := now }
        s.folders }

/-! ## Definitions: conflicts — internal/sync/conflict.go -/

/-- Model of `ConflictFile`. -/
structure ConflictFile where
  size : Int
  modTime : Int
  hash : String
  deviceName : String
deriving DecidableEq

/-- Model of `Conflict`.  The Go struct holds `*ConflictFile` pointers that are always
populated when a conflict is built; they are modelled by value. -/
structure Conflict where
  id : String
  folderPath : String
  relPath : String
  localFile : ConflictFile
  remoteFile : ConflictFile
  detectedAt : Int
  resolved : Bool
  resolution : String
deriving DecidableEq

/-- Model of `ConflictResolution` values. -/
inductive ConflictResolution
  | keep_local
  | keep_remote
  | keep_both
  | skip
deriving DecidableEq, BEq

/-- The resolution string `ResolveConflict` records for each verdict. -/
def resolutionString : ConflictResolution → String
  | .keep_local => "kept_local"
  | .keep_remote => "kept_remote"
  | .keep_both => "kept_both"
  | .skip => "skipped"

/-! ## Definitions: filesystem and engine state -/

/-- A regular file on disk: raw bytes, modification time, permission bits.
Directories are implicit in the path-keyed map; `os.Stat` is lookup,
`os.ReadFile` reads `data`, and hashing applies the (abstract) SHA-256
function to `data`. -/
structure DiskFile where
  data : List Nat
  modTime : Int
  permission : Nat
deriving DecidableEq

/-- The disk: absolute path → file. -/
abbrev FS := List (String × DiskFile)

/-- Model of `SyncActivity`. -/
structure SyncActivity where
  type : String
  fileName : String
  folderPath : String
  relPath : String
  peerName : String
  timestamp : Int
deriving DecidableEq

/-- The mutable state the engine owns: the disk it acts on, the state store,
the conflict detector's open set, and the activity log. -/
structure EngineState where
  fs : FS
  state : StateStore
  conflicts : List (String × Conflict)
  activities : List SyncActivity
deriving DecidableEq

/-- Model of `Engine.addActivity`: prepend and trim to `maxActivities = 100`.
Callback dispatch carries no state and is not modelled. -/
def Engine.addActivity (st : EngineState) (a : SyncActivity) : EngineState :=
  { st with activities := (a :: st.activities).take 100 }

/-- Model of `ConflictDetector.GetConflicts`. -/
def GetConflicts (st : EngineState) : List Conflict :=
  st.conflicts.map (fun e => e.2)

/-- Model of `ConflictDetector.GetConflict`. -/
def GetConflict (st : EngineState) (id : String) : Option Conflict :=
  alookup id st.conflicts

/-- Model of `fileutil.FileInfo` as `GetFileInfo` fills it. -/
structure FileInfoV where
  path : String
  relPath : String
  size : Int
  modTime : Int
  hash : String
  isDir : Bool
  permission : Nat
deriving DecidableEq

/-- Model of `fileutil.GetFileInfo(path, basePath)`: stat the file, compute the
relative path, and hash regular non-empty files.  `hashFn` stands for
SHA-256 (library code); `none` is the stat-error case. -/
def GetFileInfo (hashFn : List Nat → String) (fs : FS)
    (path basePath : String) : Option FileInfoV :=
  match alookup path fs with
  | none => none
  | some f =>
    some { path := path, relPath := relOf basePath path,
           size := (f.data.length : Int), modTime := f.modTime,
           isDir := false, permission := f.permission,
           hash := if 0 < f.data.length then hashFn f.data else "" }

/-! ## Definitions: conflict detection and resolution -/

/-- Model of `ConflictDetector.DetectConflict` (conflict.go lines 66-141).  Stats the
local file (absent → no conflict), hashes it, compares with the remote hash,
consults the baseline, and on a conflict registers it in the open set under
id `folderPath:relPath`.  `now` is `time.Now()`.  The `onConflict` callback
carries no state and is not modelled. -/
def DetectConflict (hashFn : List Nat → String) (st : EngineState) (now : Int)
    (folderPath relPath : String) (remoteFile : ConflictFile) :
    EngineState × Option Conflict :=
  let fullPath := filepathJoin folderPath relPath
  match alookup fullPath st.fs with
  | none => (st, none)
  | some f =>
    let localHash := hashFn f.data
    if localHash = remoteFile.hash then (st, none)
    else
      match StateStore.GetFileState st.state folderPath relPath with
      | none =>
        let c : Conflict :=
          { id := folderPath ++ ":" ++ relPath, folderPath := folderPath,
            relPath := relPath,
            localFile := { size := (f.data.length : Int), modTime := f.modTime,
                           hash := localHash, deviceName := "" },
            remoteFile := remoteFile, detectedAt := now,
            resolved := false, resolution := "" }
        ({ st with conflicts := aupdate c.id c st.conflicts }, some c)
      | some knownState =>
        if localHash ≠ knownState.hash ∧ remoteFile.hash ≠ knownState.hash then
          let c : Conflict :=
            { id := folderPath ++ ":" ++ relPath, folderPath := folderPath,
              relPath := relPath,
              localFile := { size := (f.data.length : Int), modTime := f.modTime,
                             hash := localHash, deviceName := "" },
              remoteFile := remoteFile, detectedAt := now,
              resolved := false, resolution := "" }
          ({ st with conflicts := aupdate c.id c st.conflicts }, some c)
        else (st, none)

/-- Model of `ConflictDetector.ResolveConflict` (conflict.go lines 144-173).  KeepBoth
renames the local file to the generated conflict name (an absent source makes
`os.Rename` fail, which is the only error path); every successful call marks
the conflict resolved, records the resolution string, and deletes the
conflict from the open set. -/
def ResolveConflict (cfg : Config) (st : EngineState) (c : Conflict)
    (res : ConflictResolution) (tsStr : String) :
    Except String (EngineState × Conflict) :=
  let fullPath := filepathJoin c.folderPath c.relPath
  let finish := fun (s : String) (st' : EngineState) =>
    Except.ok ({ st' with conflicts := aerase c.id st'.conflicts },
      { c with resolution := s, resolved := true })
  match res with
  | .keep_local => finish "kept_local" st
  | .keep_remote => finish "kept_remote" st
  | .keep_both =>
    match alookup fullPath st.fs with
    | none => .error "failed to rename local file"
    | some f =>
      let conflictPath := GenerateConflictName fullPath cfg.deviceName tsStr
      finish "kept_both"
        { st with fs := aupdate conflictPath f (aerase fullPath st.fs) }
  | .skip => finish "skipped" st

/-- Model of `ConflictDetector.AutoResolve` (conflict.go lines 176-196).  The Prompt
strategy defers: it returns Skip with no mutation and a nil error. -/
def AutoResolve (cfg : Config) (st : EngineState) (c : Conflict)
    (tsStr : String) :
    ConflictResolution × Except String (EngineState × Conflict) :=
  match cfg.GetConflictStrategy with
  | .newest_wins =>
    if c.localFile.modTime > c.remoteFile.modTime
    then (.keep_local, ResolveConflict cfg st c .keep_local tsStr)
    else (.keep_remote, ResolveConflict cfg st c .keep_remote tsStr)
  | .keep_both => (.keep_both, ResolveConflict cfg st c .keep_both tsStr)
  | .prompt => (.skip, .ok (st, c))

/-! ## Definitions: network message payloads the engine exchanges -/

/-- Model of `network.FileInfo` as carried in a FileList. -/
structure FileInfoMsg where
  relPath : String
  size : Int
  modTime : Int
  hash : String
  isDir : Bool
  permission : Nat
  folderPath : String
deriving DecidableEq

/-- Model of `network.FileListMessage`. -/
structure FileListMessage where
  folderPath : String
  folderName : String
  files : List FileInfoMsg
deriving DecidableEq

/-- Model of `network.FileRequestMessage`. -/
structure FileRequestMessage where
  folderPath : String
  folderName : String
  relPath : String
deriving DecidableEq

/-- Model of `network.FileDataMessage` (the chunking fields are never set by the
engine and are omitted). -/
structure FileDataMessage where
  folderPath : String
  folderName : String
  relPath : String
  size : Int
  modTime : Int
  permission : Nat
  hash : String
  data : List Nat
deriving DecidableEq

/-- Model of `network.FileDeleteMessage`. -/
structure FileDeleteMessage where
  folderPath : String
  folderName : String
  relPath : String
deriving DecidableEq

/-- An outgoing protocol message (broadcast and per-session sends are
collected in order; the claims only quantify over whether any is sent). -/
inductive OutMsg
  | fileRequest (m : FileRequestMessage)
  | fileData (m : FileDataMessage)
  | fileDelete (m : FileDeleteMessage)
deriving DecidableEq

/-! ## Definitions: engine handlers — Engine (sync engine) -/

/-- Model of `Engine.findLocalFolderByName`: first enabled folder whose base name
matches; "" when none. -/
def findLocalFolderByName (cfg : Config) (folderName : String) : String :=
  match cfg.folders.find?
      (fun f => f.enabled && (filepathBase f.path == folderName)) with
  | some f => f.path
  | none => ""

/-- One iteration of the `for _, remoteFile := range fileList.Files` loop in
`Engine.handleFileList`: stat the local file (absent → request it), hash it
(equal hashes → nothing), otherwise run conflict detection; a detected
conflict is auto-resolved and the remote is requested when the verdict is
KeepRemote or KeepBoth; without a conflict the remote is requested when its
mtime is strictly newer. -/
def handleFileListEntry (hashFn : List Nat → String) (cfg : Config)
    (st : EngineState) (now : Int) (tsStr : String)
    (fileList : FileListMessage) (localFolderPath : String)
    (remoteFile : FileInfoMsg) (peerName : String) :
    EngineState × List OutMsg :=
  let localPath := filepathJoin localFolderPath remoteFile.relPath
  let req : OutMsg := .fileRequest
    { folderPath := fileList.folderPath, folderName := fileList.folderName,
      relPath := remoteFile.relPath }
  match alookup localPath st.fs with
  | none => (st, [req])
  | some f =>
    let localHash := hashFn f.data
    if localHash ≠ remoteFile.hash then
      let detected := DetectConflict hashFn st now localFolderPath
        remoteFile.relPath
        { size := remoteFile.size, modTime := remoteFile.modTime,
          hash := remoteFile.hash, deviceName := peerName }
      match detected.2 with
      | some c =>
        let resolved := AutoResolve cfg detected.1 c tsStr
        match resolved.2 with
        | .error _ => (detected.1, [])
        | .ok (st2, _) =>
          if resolved.1 = .keep_remote ∨ resolved.1 = .keep_both
          then (st2, [req]) else (st2, [])
      | none =>
        if remoteFile.modTime > f.modTime then (detected.1, [req])
        else (detected.1, [])
    else (st, [])

/-- Model of `Engine.handleFileList`: map the folder by base name (no match → drop),
check the receive policy (send-only → drop), then process each entry. -/
def handleFileList (hashFn : List Nat → String) (cfg : Config)
    (st : EngineState) (now : Int) (tsStr : String)
    (fileList : FileListMessage) (peerName : String) :
    EngineState × List OutMsg :=
  let localFolderPath := findLocalFolderByName cfg fileList.folderName
  if localFolderPath = "" then (st, [])
  else if !cfg.CanReceive then (st, [])
  else
    fileList.files.foldl
      (fun acc remoteFile =>
        let step := handleFileListEntry hashFn cfg acc.1 now tsStr fileList
          localFolderPath remoteFile peerName
        (step.1, acc.2 ++ step.2))
      (st, [])

/-- Model of `Engine.handleFileData` (remote file content arriving): receive policy
gate, folder mapping, create directories (implicit in the path-keyed disk),
write the file with the carried permissions, restore its mtime, upsert the
baseline record, and append a "received" activity.  Write errors abort with
no further effect and are not modelled beyond the unchanged-state early
returns the claims exercise. -/
def handleFileData (cfg : Config) (st : EngineState) (now : Int)
    (fileData : FileDataMessage) (peerName : String) : EngineState :=
  if !cfg.CanReceive then st
  else
    let localFolderPath := findLocalFolderByName cfg fileData.folderName
    if localFolderPath = "" then st
    else
      let fullPath := filepathJoin localFolderPath fileData.relPath
      let written : DiskFile :=
        { data := fileData.data, modTime := fileData.modTime,
          permission := fileData.permission }
      let record : FileState :=
        { relPath := fileData.relPath, hash := fileData.hash,
          size := fileData.size, modTime := fileData.modTime,
          permission := fileData.permission, syncedAt := now,
          syncedFrom := peerName }
      let st1 := { st with fs := aupdate fullPath written st.fs }
      let st2 := { st1 with state := (StateStore.UpdateFileState st1.state
        localFolderPath record now) }
      Engine.addActivity st2
        { type := "received", fileName := filepathBase fileData.relPath,
          folderPath := localFolderPath, relPath := fileData.relPath,
          peerName := peerName, timestamp := now }

/-- Model of `FileEvent` kinds. -/
inductive EventType
  | create
  | modify
  | delete
  | rename
deriving DecidableEq

/-- A watcher `FileEvent`. -/
structure FileEvent where
  type : EventType
  path : String
  relPath : String
  folderPath : String
  timestamp : Int
deriving DecidableEq

/-- Model of `Engine.handleFileChange` (local Create/Modify): send policy gate, stat
and hash, update the baseline, read the whole file, emit the FileData
(broadcast plus every outbound session — collected as one emission list),
and record a "sent" activity. -/
def handleFileChange (hashFn : List Nat → String) (cfg : Config)
    (st : EngineState) (now : Int) (event : FileEvent) :
    EngineState × List OutMsg :=
  if !cfg.CanSend then (st, [])
  else
    match GetFileInfo hashFn st.fs event.path event.folderPath with
    | none => (st, [])
    | some fi =>
      let record : FileState :=
        { relPath := fi.relPath, hash := fi.hash, size := fi.size,
          modTime := fi.modTime, permission := fi.permission,
          syncedAt := now, syncedFrom := cfg.deviceName }
      let st1 := { st with state := (StateStore.UpdateFileState st.state
        event.folderPath record now) }
      match alookup event.path st1.fs with
      | none => (st1, [])
      | some f =>
        let msg : FileDataMessage :=
          { folderPath := event.folderPath,
            folderName := filepathBase event.folderPath,
            relPath := fi.relPath, size := fi.size, modTime := fi.modTime,
            permission := fi.permission, hash := fi.hash, data := f.data }
        (Engine.addActivity st1
          { type := "sent", fileName := filepathBase event.path,
            folderPath := event.folderPath, relPath := fi.relPath,
            peerName := "all", timestamp := now },
         [.fileData msg])

/-- Model of `Engine.handleRemoteDelete` (incoming FileDelete): receive policy gate,
folder mapping, `os.Remove` (a missing file is `IsNotExist` and the handler
continues), `RemoveFileState`, and a "deleted" activity. -/
def handleRemoteDelete (cfg : Config) (st : EngineState) (now : Int)
    (del : FileDeleteMessage) (peerName : String) : EngineState :=
  if !cfg.CanReceive then st
  else
    let localFolderPath := findLocalFolderByName cfg del.folderName
    if localFolderPath = "" then st
    else
      let fullPath := filepathJoin localFolderPath del.relPath
      let st1 := { st with fs := aerase fullPath st.fs }
      let st2 := { st1 with state := (StateStore.RemoveFileState st1.state
        localFolderPath del.relPath now) }
      Engine.addActivity st2
        { type := "deleted", fileName := filepathBase del.relPath,
          folderPath := localFolderPath, relPath := del.relPath,
          peerName := peerName, timestamp := now }

/-! ## Definitions: peer registry health loop — discovery -/

/-- A discovered or manual peer. -/
structure Peer where
  id : String
  name : String
  host : String
  port : Nat
  lastSeen : Int
  manual : Bool
deriving DecidableEq

/-- The aging predicate of `Discovery.healthCheck`: non-manual and not seen
for strictly more than 2 minutes (times in seconds). -/
def peerStale (now : Int) (p : Peer) : Bool :=
  !p.manual && decide (120 < now - p.lastSeen)

/-- One tick of `Discovery.healthCheck` (ticker period 30 s): every stale
non-manual peer is deleted from the registry and `onPeerLost` fires for it.
Returns the remaining registry and the removed entries (the onPeerLost
invocations, in order). -/
def healthCheckTick (now : Int) (peers : List (String × Peer)) :
    List (String × Peer) × List (String × Peer) :=
  (peers.filter (fun e => !peerStale now e.2),
   peers.filter (fun e => peerStale now e.2))

/-! ## Definitions: pointer-level view of the state store (aliasing)

Go returns `*FolderState` from `GetFolderState` and a freshly allocated map
from `GetAllFiles`.  To make copying versus aliasing observable, this view
gives each live `Files` map an address into a heap; a caller mutating a map
it was handed (adding, removing, or replacing entries) is a `mapWrite` at
that address.  `GetAllFiles` copies the entries out and returns them by
value (no address), exactly as the source's copy loop does; `GetFolderState`
returns the folder header whose `filesAddr` is the live map. -/

namespace Ref

/-- The `FolderState` header reached through the returned pointer: `Path` and
`UpdatedAt` data plus the identity of the live `Files` map. -/
structure FolderRec where
  path : String
  filesAddr : Nat
  updatedAt : Int
deriving DecidableEq

/-- The store: a heap of live file maps and the folder table. -/
structure Store where
  heap : Nat → List (String × FileState)
  folders : List (String × FolderRec)

/-- Dereference a live map. -/
def readMap (s : Store) (a : Nat) : List (String × FileState) := s.heap a

/-- A caller mutating a map through its reference. -/
def mapWrite (s : Store) (a : Nat) (entries : List (String × FileState)) :
    Store :=
  { s with heap := Function.update s.heap a entries }

/-- Model of `StateStore.GetFolderState` (returns the live `*FolderState`). -/
def GetFolderState (s : Store) (folderPath : String) : Option FolderRec :=
  alookup folderPath s.folders

/-- Model of `StateStore.GetFileState`. -/
def GetFileState (s : Store) (folderPath relPath : String) :
    Option FileState :=
  match GetFolderState s folderPath with
  | none => none
  | some fr => alookup relPath (readMap s fr.filesAddr)

/-- Model of `StateStore.GetAllFiles`: copies the live map into a fresh map and
returns it by value. -/
def GetAllFiles (s : Store) (folderPath : String) :
    Option (List (String × FileState)) :=
  (GetFolderState s folderPath).map (fun fr => readMap s fr.filesAddr)

/-- A concrete baseline record. -/
def rec0 : FileState :=
  { relPath := "r", hash := "h", size := 1, modTime := 0, permission := 420,
    syncedAt := 0, syncedFrom := "Alpha" }

/-- The folder header of the concrete store. -/
def fr0 : FolderRec := { path := "f", filesAddr := 0, updatedAt := 0 }

/-- A concrete store: one folder "f" whose live map at address 0 holds the
record for "r". -/
def store0 : Store :=
  { heap := fun a => if a = 0 then [("r", rec0)] else [],
    folders := [("f", fr0)] }

end Ref

/-! ## Definitions: concrete instances used in closed statements -/

/-- An empty-state engine configuration with the newest-wins strategy. -/
def cfgNW : Config :=
  { deviceName := "Alpha", folders := [],
    syncDirection := "bidirectional", conflictResolution := "newest_wins" }

/-- A conflict whose local and remote modification times are exactly
equal. -/
def cTie : Conflict :=
  { id := "f:r", folderPath := "f", relPath := "r",
    localFile := { size := 1, modTime := 100, hash := "HL",
                   deviceName := "" },
    remoteFile := { size := 1, modTime := 100, hash := "HR",
                    deviceName := "Beta" },
    detectedAt := 0, resolved := false, resolution := "" }

/-- An engine state holding `cTie` as its only open conflict. -/
def stE : EngineState :=
  { fs := [], state := { folders := [] }, conflicts := [("f:r", cTie)],
    activities := [] }

/-- A concrete disk file. -/
def file0 : DiskFile := { data := [1], modTime := 7, permission := 420 }

/-- An engine state with one local file "f/r" and no baseline. -/
def stW : EngineState :=
  { fs := [("f/r", file0)], state := { folders := [] }, conflicts := [],
    activities := [] }

/-- A remote file record whose hash differs from the local one. -/
def remote0 : ConflictFile :=
  { size := 1, modTime := 9, hash := "HR", deviceName := "Beta" }

/-- A conflict for the resolution claims. -/
def cW : Conflict :=
  { id := "f:r", folderPath := "f", relPath := "r",
    localFile := { size := 1, modTime := 3, hash := "HL", deviceName := "" },
    remoteFile := { size := 1, modTime := 4, hash := "HR",
                    deviceName := "Beta" },
    detectedAt := 0, resolved := false, resolution := "" }

/-- An engine state holding `cW` as its only open conflict. -/
def stC : EngineState :=
  { fs := [], state := { folders := [] }, conflicts := [("f:r", cW)],
    activities := [] }

/-- A bidirectional configuration tracking one folder "Sync". -/
def cfgC5 : Config :=
  { deviceName := "Alpha", folders := [{ path := "Sync", enabled := true }],
    syncDirection := "bidirectional", conflictResolution := "newest_wins" }

/-- An incoming delete for relative path "r" in folder "Sync". -/
def del0 : FileDeleteMessage :=
  { folderPath := "RemoteSync", folderName := "Sync", relPath := "r" }

/-- An engine state with an empty disk and the "Sync" folder tracked with
an empty file table, last updated at time 0. -/
def st5 : EngineState :=
  { fs := [],
    state := { folders :=
      [("Sync", { path := "Sync", files := [], updatedAt := 0 })] },
    conflicts := [], activities := [] }

/-- An engine state whose disk holds "Sync/r". -/
def st6 : EngineState :=
  { fs := [("Sync/r", file0)], state := { folders := [] }, conflicts := [],
    activities := [] }

/-- A file list carrying one entry for "r" whose hash matches the local
content under the constant hash function used in the closed statement. -/
def fl6 : FileListMessage :=
  { folderPath := "RemoteSync", folderName := "Sync",
    files := [{ relPath := "r", size := 1, modTime := 99, hash := "H1",
                isDir := false, permission := 420,
                folderPath := "RemoteSync" }] }

/-- A send-only configuration. -/
def cfgSend : Config :=
  { deviceName := "Alpha", folders := [{ path := "Sync", enabled := true }],
    syncDirection := "send_only", conflictResolution := "newest_wins" }

/-- A receive-only configuration. -/
def cfgRecv : Config :=
  { deviceName := "Alpha", folders := [{ path := "Sync", enabled := true }],
    syncDirection := "receive_only", conflictResolution := "newest_wins" }

/-- An incoming file-content message. -/
def fd0 : FileDataMessage :=
  { folderPath := "RemoteSync", folderName := "Sync", relPath := "r",
    size := 1, modTime := 9, permission := 420, hash := "HR", data := [1] }

/-- A local create event. -/
def ev0 : FileEvent :=
  { type := .create, path := "Sync/r", relPath := "r", folderPath := "Sync",
    timestamp := 0 }

/-- A manual peer last seen at time 0. -/
def pm : Peer :=
  { id := "manual-a:1", name := "a", host := "a", port := 1, lastSeen := 0,
    manual := true }

/-- A discovered (non-manual) peer last seen at time 0. -/
def pb : Peer :=
  { id := "b", name := "b", host := "b", port := 2, lastSeen := 0,
    manual := false }

/-- A registry holding the manual peer and the stale discovered peer. -/
def peers9 : List (String × Peer) := [("manual-a:1", pm), ("b", pb)]

/-! ## Theorems: codec -/

theorem beUint32_putUint32BE (n : Nat) (h : n < 2 ^ 32) :
    beUint32 (n / 2 ^ 24 % 256) (n / 2 ^ 16 % 256) (n / 2 ^ 8 % 256)
      (n % 256) = n := by
  simp only [beUint32]
  omega

theorem readLoop_stops_at_error (pre post : List (Except String Message))
    (e : String) :
    readLoop (pre ++ .error e :: post) = readLoop (pre ++ [.error e]) := by
  induction pre with
  | nil => simp [readLoop]
  | cons hd tl ih =>
    cases hd with
    | error s => simp [readLoop]
    | ok m => simp [readLoop, ih]

/-- C3: codec round-trip and frame-size enforcement, as the code implements
it.  For a message whose encoding is at most 64 MiB, `WriteMessage` emits a
4-byte big-endian length prefix followed by exactly the payload bytes, and
`ReadMessage` on those bytes returns the original message with nothing left
over.  `WriteMessage` rejects encodings longer than 64 MiB **provided the
length is below 2 ^ 32** (the `uint32` cast wraps larger lengths);
`ReadMessage` rejects any declared length above 64 MiB; and a read error
terminates the read loop (no later message is forwarded). -/
theorem C3_codec_framing
    (marshal : Message → List Nat) (unmarshal : List Nat → Option Message)
    (msg : Message)
    (hlen : (marshal msg).length ≤ MaxMessageSize)
    (hrt : unmarshal (marshal msg) = some msg) :
    WriteMessage marshal msg
        = .ok (putUint32BE (marshal msg).length ++ marshal msg)
    ∧ (putUint32BE (marshal msg).length).length = 4
    ∧ ReadMessage unmarshal (putUint32BE (marshal msg).length ++ marshal msg)
        = .ok (msg, [])
    ∧ (∀ data : List Nat,
        MaxMessageSize < data.length → data.length < 2 ^ 32 →
        WriteMessage (fun _ => data) msg = .error "message too large")
    ∧ (∀ b0 b1 b2 b3 rest, MaxMessageSize < beUint32 b0 b1 b2 b3 →
        ReadMessage unmarshal (b0 :: b1 :: b2 :: b3 :: rest)
          = .error "message too large")
    ∧ (∀ pre post e,
        readLoop (pre ++ .error e :: post) = readLoop (pre ++ [.error e])) := by
  have hlt : (marshal msg).length < 2 ^ 32 := by
    have : MaxMessageSize < 2 ^ 32 := by norm_num [MaxMessageSize]
    omega
  have hmod : (marshal msg).length % 2 ^ 32 = (marshal msg).length :=
    Nat.mod_eq_of_lt hlt
  refine ⟨?_, rfl, ?_, ?_, ?_, ?_⟩
  · simp only [WriteMessage, hmod]
    rw [if_neg (by omega)]
  · simp only [putUint32BE, List.cons_append, List.nil_append, ReadMessage,
      beUint32_putUint32BE (marshal msg).length hlt]
    rw [if_neg (by omega), if_neg (by omega), List.take_length, hrt,
      List.drop_length]
  · intro data hbig hsmall
    simp only [WriteMessage]
    rw [Nat.mod_eq_of_lt hsmall, if_pos hbig]
  · intro b0 b1 b2 b3 rest hbig
    simp only [ReadMessage]
    rw [if_pos hbig]
  · intro pre post e
    exact readLoop_stops_at_error pre post e

/-- C3 counterexample: a frame whose actual encoded length (2 ^ 32 bytes)
exceeds 64 MiB for which `WriteMessage` does **not** return an error: the
`uint32(len(data))` cast wraps the length to 0, the oversize check passes,
and the frame is emitted with a zero length prefix. -/
theorem C3_counterexample :
    MaxMessageSize < (marshalBig msg0).length
    ∧ WriteMessage marshalBig msg0
        = .ok (putUint32BE 0 ++ marshalBig msg0) := by
  have hdata : (marshalBig msg0).length = 2 ^ 32 := List.length_replicate ..
  constructor
  · rw [hdata]; norm_num [MaxMessageSize]
  · simp only [WriteMessage, hdata, Nat.mod_self]
    rw [if_neg (Nat.not_lt_zero _)]

/-- Closed instantiation of `C3_codec_framing` at a one-byte encoding. -/
theorem C3_codec_framing_witness :
    WriteMessage (fun _ => [7]) msg0 = .ok (putUint32BE 1 ++ [7])
    ∧ ReadMessage (fun _ => some msg0) (putUint32BE 1 ++ [7])
        = .ok (msg0, []) := by
  have h := C3_codec_framing (fun _ => [7]) (fun _ => some msg0) msg0
    (by decide) rfl
  exact ⟨h.1, h.2.2.1⟩

/-! ## Theorems: state file naming -/

theorem hashString_lt (s : List Nat) : hashString s < 2 ^ 32 := by
  have key : ∀ (l : List Nat) (acc : Nat), acc < 2 ^ 32 →
      l.foldl (fun h b => ((h ^^^ b) * 16777619) % 2 ^ 32) acc < 2 ^ 32 := by
    intro l
    induction l with
    | nil => intro acc h; simpa using h
    | cons hd tl ih =>
      intro acc h
      simp only [List.foldl_cons]
      exact ih _ (Nat.mod_lt _ (by norm_num))
  exact key _ _ (by norm_num)

theorem hexDigitsAux_length_le (fuel n : Nat) :
    (hexDigitsAux fuel n).length ≤ fuel := by
  induction fuel generalizing n with
  | zero => simp [hexDigitsAux]
  | succ f ih =>
    simp only [hexDigitsAux]
    by_cases h : n = 0
    · simp [h]
    · simp only [h, if_false, List.length_append, List.length_cons,
        List.length_nil]
      have := ih (n / 16)
      omega

theorem hexDigitsAux_length_eq (fuel n : Nat) (hfuel : 0 < fuel)
    (hlo : 16 ^ (fuel - 1) ≤ n) (hhi : n < 16 ^ fuel) :
    (hexDigitsAux fuel n).length = fuel := by
  induction fuel generalizing n with
  | zero => omega
  | succ f ih =>
    have hpos : 0 < 16 ^ (f + 1 - 1) := pow_pos (by norm_num) _
    have hn : n ≠ 0 := by omega
    simp only [hexDigitsAux, hn, if_false, List.length_append,
      List.length_cons, List.length_nil]
    by_cases hf : f = 0
    · subst hf
      simp [hexDigitsAux]
    · have hf0 : 0 < f := Nat.pos_of_ne_zero hf
      have hlo' : 16 ^ (f - 1) ≤ n / 16 := by
        rw [Nat.le_div_iff_mul_le (by norm_num : 0 < 16)]
        have e : 16 ^ (f - 1) * 16 = 16 ^ f := by
          rw [← pow_succ]
          congr 1
          omega
        rw [e]
        simpa using hlo
      have hhi' : n / 16 < 16 ^ f := by
        rw [Nat.div_lt_iff_lt_mul (by norm_num : 0 < 16)]
        calc n < 16 ^ (f + 1) := hhi
          _ = 16 ^ f * 16 := pow_succ 16 f
      rw [ih (n / 16) hf0 hlo' hhi']

theorem hexDigitsAux_length_lt (fuel n : Nat) (hfuel : 0 < fuel)
    (hhi : n < 16 ^ (fuel - 1)) :
    (hexDigitsAux fuel n).length < fuel := by
  induction fuel generalizing n with
  | zero => omega
  | succ f ih =>
    by_cases hn : n = 0
    · simp [hexDigitsAux, hn]
    · simp only [hexDigitsAux, hn, if_false, List.length_append,
        List.length_cons, List.length_nil]
      have hf0 : 0 < f := by
        rcases Nat.eq_zero_or_pos f with hf | hf
        · subst hf
          simp only [Nat.sub_self, pow_zero] at hhi
          omega
        · exact hf
      have hhi' : n / 16 < 16 ^ (f - 1) := by
        rw [Nat.div_lt_iff_lt_mul (by norm_num : 0 < 16)]
        have e : 16 ^ (f - 1) * 16 = 16 ^ f := by
          rw [← pow_succ]
          congr 1
          omega
        rw [e]
        have hsimp : f + 1 - 1 = f := by omega
        rw [hsimp] at hhi
        exact hhi
      have := ih (n / 16) hf0 hhi'
      omega

theorem hexDigitsAux_mem_charset (fuel n : Nat) :
    ∀ c ∈ hexDigitsAux fuel n, c ∈ hexCharset := by
  induction fuel generalizing n with
  | zero => simp [hexDigitsAux]
  | succ f ih =>
    intro c hc
    by_cases hn : n = 0
    · simp [hexDigitsAux, hn] at hc
    · simp only [hexDigitsAux, hn, if_false, List.mem_append,
        List.mem_singleton] at hc
      rcases hc with hc | hc
      · exact ih (n / 16) c hc
      · subst hc
        have hm : n % 16 < 16 := Nat.mod_lt _ (by norm_num)
        have all16 : ∀ m : Fin 16, Nat.digitChar m.val ∈ hexCharset := by
          decide
        exact all16 ⟨n % 16, hm⟩

/-- C4 counterexample: the folder path with bytes "akd" has FNV-1a hash
0xd368b73, whose `%x` rendering is only seven hex digits, so the state file
name is "d368b73.json" (12 characters), not eight digits plus ".json"
(13 characters). -/
theorem C4_counterexample :
    stateFileName [97, 107, 100] = "d368b73.json"
    ∧ (stateFileName [97, 107, 100]).length = 12 := by
  constructor <;> decide

/-- C4 (amended): the state file for folder path p is named by the 32-bit
FNV-1a hash of p (offset basis 2166136261, prime 16777619) rendered in
lowercase hexadecimal **without zero padding** — between one and eight
digits, exactly eight precisely when the hash is at least 2 ^ 28 — followed
by ".json". -/
theorem C4_state_filename (path : List Nat) :
    hashString path < 2 ^ 32
    ∧ stateFileName path = fmtHexUint32 (hashString path) ++ ".json"
    ∧ 1 ≤ (fmtHexUint32 (hashString path)).length
    ∧ (fmtHexUint32 (hashString path)).length ≤ 8
    ∧ ((fmtHexUint32 (hashString path)).length = 8
        ↔ 2 ^ 28 ≤ hashString path)
    ∧ (∀ c ∈ (fmtHexUint32 (hashString path)).data, c ∈ hexCharset) := by
  have hh : hashString path < 2 ^ 32 := hashString_lt path
  refine ⟨hh, rfl, ?_, ?_, ?_, ?_⟩
  all_goals by_cases h0 : hashString path = 0
  · simp only [fmtHexUint32, h0, if_true]
    decide
  · have : 0 < (hexDigitsAux 8 (hashString path)).length := by
      simp [hexDigitsAux, h0]
    simp only [fmtHexUint32, h0, if_false]
    exact this
  · simp only [fmtHexUint32, h0, if_true]
    decide
  · simp only [fmtHexUint32, h0, if_false]
    exact hexDigitsAux_length_le 8 _
  · simp only [fmtHexUint32, h0, if_true]
    constructor
    · intro h; exact absurd h (by decide)
    · intro h; omega
  · simp only [fmtHexUint32, h0, if_false]
    have hlen : (String.mk (hexDigitsAux 8 (hashString path))).length
        = (hexDigitsAux 8 (hashString path)).length := rfl
    rw [hlen]
    constructor
    · intro h
      by_contra hlo
      push_neg at hlo
      have : (hexDigitsAux 8 (hashString path)).length < 8 := by
        refine hexDigitsAux_length_lt 8 _ (by norm_num) ?_
        norm_num
        omega
      omega
    · intro h
      refine hexDigitsAux_length_eq 8 _ (by norm_num) ?_ ?_
      · norm_num
        omega
      · norm_num
        omega
  · simp only [fmtHexUint32, h0, if_true]
    decide
  · simp only [fmtHexUint32, h0, if_false]
    exact hexDigitsAux_mem_charset 8 _

/-- Closed instantiation of `C4_state_filename` at the path "/tmp/x"
(hash 0xff28930c ≥ 2 ^ 28, so eight digits). -/
theorem C4_state_filename_witness :
    (fmtHexUint32 (hashString [47, 116, 109, 112, 47, 120])).length = 8
    ∧ 'f' ∈ hexCharset := by
  have h := C4_state_filename [47, 116, 109, 112, 47, 120]
  refine ⟨h.2.2.2.2.1.mpr (by decide), ?_⟩
  exact h.2.2.2.2.2 'f' (by decide)

/-! ## Theorems: association-list facts about Go map modelling -/

theorem alookup_none_of_not_mem_keys {α : Type} (k : String)
    (l : List (String × α)) (h : k ∉ l.map Prod.fst) : alookup k l = none := by
  induction l with
  | nil => rfl
  | cons hd tl ih =>
    simp only [List.map_cons, List.mem_cons] at h
    push_neg at h
    simp only [alookup]
    rw [if_neg (Ne.symm h.1)]
    exact ih h.2

theorem aerase_of_alookup_none {α : Type} (k : String) (l : List (String × α))
    (h : alookup k l = none) : aerase k l = l := by
  induction l with
  | nil => rfl
  | cons hd tl ih =>
    by_cases hk : hd.1 = k
    · simp only [alookup] at h
      rw [if_pos hk] at h
      exact absurd h (by simp)
    · simp only [alookup] at h
      rw [if_neg hk] at h
      simp only [aerase]
      rw [if_neg hk, ih h]

theorem alookup_aerase_self {α : Type} (k : String) (l : List (String × α))
    (h : (l.map Prod.fst).Nodup) : alookup k (aerase k l) = none := by
  induction l with
  | nil => rfl
  | cons hd tl ih =>
    simp only [List.map_cons, List.nodup_cons] at h
    by_cases hk : hd.1 = k
    · simp only [aerase]
      rw [if_pos hk]
      exact alookup_none_of_not_mem_keys k tl (hk ▸ h.1)
    · simp only [aerase]
      rw [if_neg hk]
      simp only [alookup, if_neg hk]
      exact ih h.2

theorem mem_aerase {α : Type} {e : String × α} {k : String}
    {l : List (String × α)} (h : e ∈ aerase k l) : e ∈ l := by
  induction l with
  | nil => simp [aerase] at h
  | cons hd tl ih =>
    simp only [aerase] at h
    by_cases hk : hd.1 = k
    · rw [if_pos hk] at h
      exact List.mem_cons_of_mem hd h
    · rw [if_neg hk] at h
      rcases List.mem_cons.mp h with h | h
      · exact h ▸ List.mem_cons_self hd tl
      · exact List.mem_cons_of_mem hd (ih h)

theorem key_ne_of_mem_aerase {α : Type} {e : String × α} {k : String}
    {l : List (String × α)} (hnd : (l.map Prod.fst).Nodup)
    (h : e ∈ aerase k l) : e.1 ≠ k := by
  induction l with
  | nil => simp [aerase] at h
  | cons hd tl ih =>
    simp only [List.map_cons, List.nodup_cons] at hnd
    simp only [aerase] at h
    by_cases hk : hd.1 = k
    · rw [if_pos hk] at h
      intro he
      apply hnd.1
      rw [hk, ← he]
      exact List.mem_map_of_mem Prod.fst h
    · rw [if_neg hk] at h
      rcases List.mem_cons.mp h with h | h
      · rw [h]; exact hk
      · exact ih hnd.2 h

theorem alookup_aupdate_self {α : Type} (k : String) (v : α)
    (l : List (String × α)) : alookup k (aupdate k v l) = some v := by
  induction l with
  | nil => simp [aupdate, alookup]
  | cons hd tl ih =>
    by_cases hk : hd.1 = k
    · simp only [aupdate]
      rw [if_pos hk]
      simp [alookup]
    · simp only [aupdate]
      rw [if_neg hk]
      simp only [alookup]
      rw [if_neg hk]
      exact ih

theorem alookup_aupdate_ne {α : Type} (k k' : String) (v : α)
    (l : List (String × α)) (h : k ≠ k') :
    alookup k (aupdate k' v l) = alookup k l := by
  induction l with
  | nil =>
    simp only [aupdate, alookup]
    rw [if_neg (fun hh => h hh.symm)]
  | cons hd tl ih =>
    by_cases hk : hd.1 = k'
    · simp only [aupdate]
      rw [if_pos hk]
      simp only [alookup]
      rw [if_neg (fun hh => h hh.symm), if_neg (by rw [hk]; exact fun hh => h hh.symm)]
    · simp only [aupdate]
      rw [if_neg hk]
      simp only [alookup]
      by_cases hk2 : hd.1 = k
      · rw [if_pos hk2, if_pos hk2]
      · rw [if_neg hk2, if_neg hk2]
        exact ih

theorem filter_key_eq_nil {α : Type} (l : List (String × α)) (id : String)
    (h : id ∉ l.map Prod.fst) (p : String × α → Bool) :
    (l.filter p).filter (fun e => e.1 == id) = [] := by
  induction l with
  | nil => rfl
  | cons hd tl ih =>
    simp only [List.map_cons, List.mem_cons] at h
    push_neg at h
    have hbeq : (hd.1 == id) = false := by
      simp only [beq_eq_false_iff_ne, ne_eq]
      exact fun hh => h.1 hh.symm
    rw [List.filter_cons]
    by_cases hp : p hd
    · rw [if_pos (by simpa using hp), List.filter_cons, hbeq]
      simpa using ih h.2
    · rw [if_neg (by simpa using hp)]
      exact ih h.2

/-! ## Theorems: C8 — state-store readers, copies versus aliases -/

/-- C8 counterexample: `GetFolderState` hands back the live folder state,
not a copy.  In the concrete store, removing the entry for "r" through the
`Files` map reached from `GetFolderState`'s result makes the subsequent
`GetFileState` return nothing, where the claim says all subsequent reads are
unchanged. -/
theorem C8_counterexample :
    Ref.GetFolderState Ref.store0 "f" = some Ref.fr0
    ∧ Ref.GetFileState Ref.store0 "f" "r" = some Ref.rec0
    ∧ Ref.GetFileState
        (Ref.mapWrite Ref.store0 Ref.fr0.filesAddr
          (aerase "r" (Ref.readMap Ref.store0 Ref.fr0.filesAddr)))
        "f" "r" = none := by
  refine ⟨rfl, rfl, ?_⟩
  simp [Ref.GetFileState, Ref.GetFolderState, Ref.mapWrite, Ref.readMap,
    Ref.store0, Ref.fr0, Ref.rec0, alookup, aerase]

/-- C8 (amended): `GetAllFiles` returns a fresh copy of the folder's file
map, equal to the live contents at call time and carrying no reference into
the store, so mutating it cannot change later reads; `GetFolderState`,
however, returns the live folder state, and mutating the `Files` map through
its result is visible to every subsequent `GetAllFiles` and
`GetFileState`. -/
theorem C8_reader_copies (s : Ref.Store) (f : String) (fr : Ref.FolderRec)
    (h : Ref.GetFolderState s f = some fr) :
    Ref.GetAllFiles s f = some (Ref.readMap s fr.filesAddr)
    ∧ ∀ entries,
        Ref.GetAllFiles (Ref.mapWrite s fr.filesAddr entries) f = some entries
        ∧ ∀ r, Ref.GetFileState (Ref.mapWrite s fr.filesAddr entries) f r
            = alookup r entries := by
  have hfolders : ∀ entries,
      Ref.GetFolderState (Ref.mapWrite s fr.filesAddr entries) f = some fr := by
    intro entries
    simpa [Ref.GetFolderState, Ref.mapWrite] using h
  refine ⟨by simp [Ref.GetAllFiles, h], fun entries => ⟨?_, fun r => ?_⟩⟩
  · simp only [Ref.GetAllFiles, hfolders entries, Option.map_some]
    simp [Ref.readMap, Ref.mapWrite]
  · simp only [Ref.GetFileState, hfolders entries]
    simp [Ref.readMap, Ref.mapWrite]

/-- Closed instantiation of `C8_reader_copies` at the concrete store. -/
theorem C8_reader_copies_witness :
    Ref.GetAllFiles Ref.store0 "f" = some [("r", Ref.rec0)]
    ∧ Ref.GetAllFiles (Ref.mapWrite Ref.store0 Ref.fr0.filesAddr []) "f"
        = some []
    ∧ Ref.GetFileState (Ref.mapWrite Ref.store0 Ref.fr0.filesAddr []) "f" "r"
        = none := by
  have h := C8_reader_copies Ref.store0 "f" Ref.fr0 rfl
  refine ⟨h.1, (h.2 []).1, ?_⟩
  rw [(h.2 []).2 "r"]
  rfl

/-! ## Theorems: C1 — three-way baseline conflict detection -/

/-- C1: for every (folderPath, relPath, remoteFile), `DetectConflict` returns
no conflict when the local file is absent; when the local file exists, it
returns a conflict precisely when the local hash differs from the remote hash
and — when a baseline record exists — both the local and the remote hash
differ from the baseline hash (with no baseline, differing hashes alone are a
conflict). -/
theorem C1_detect_conflict (hashFn : List Nat → String) (st : EngineState)
    (now : Int) (folderPath relPath : String) (remoteFile : ConflictFile) :
    (alookup (filepathJoin folderPath relPath) st.fs = none →
      (DetectConflict hashFn st now folderPath relPath remoteFile).2 = none)
    ∧ (∀ f, alookup (filepathJoin folderPath relPath) st.fs = some f →
        ((DetectConflict hashFn st now folderPath relPath remoteFile).2.isSome
          ↔ hashFn f.data ≠ remoteFile.hash
            ∧ (match StateStore.GetFileState st.state folderPath relPath with
               | none => True
               | some baseline =>
                 hashFn f.data ≠ baseline.hash
                 ∧ remoteFile.hash ≠ baseline.hash))) := by
  constructor
  · intro h
    simp only [DetectConflict, h]
  · intro f hf
    simp only [DetectConflict, hf]
    by_cases heq : hashFn f.data = remoteFile.hash
    · simp [heq]
    · cases hks : StateStore.GetFileState st.state folderPath relPath with
      | none => simp [heq, hks]
      | some baseline =>
        by_cases hboth :
            hashFn f.data ≠ baseline.hash ∧ remoteFile.hash ≠ baseline.hash
        · simp [heq, hks, hboth]
        · simp [heq, hks, hboth]

/-- Closed instantiation of `C1_detect_conflict`: differing hashes with no
baseline record yield a conflict. -/
theorem C1_detect_conflict_witness :
    (DetectConflict (fun _ => "HL") stW 3 "f" "r" remote0).2.isSome = true := by
  have h := C1_detect_conflict (fun _ => "HL") stW 3 "f" "r" remote0
  exact (h.2 file0 rfl).mpr ⟨by decide, trivial⟩

/-! ## Theorems: C2 — NewestWins auto-resolution -/

/-- C2 counterexample: with the NewestWins strategy and exactly equal local
and remote modification times, `AutoResolve` returns keep-remote, not the
keep-local the claim states (`time.After` is a strict comparison, so the tie
falls to the else branch). -/
theorem C2_counterexample :
    cTie.localFile.modTime = cTie.remoteFile.modTime
    ∧ (AutoResolve cfgNW stE cTie "ts").1 = ConflictResolution.keep_remote
    ∧ (AutoResolve cfgNW stE cTie "ts").1 ≠ ConflictResolution.keep_local := by
  refine ⟨rfl, rfl, ?_⟩
  decide

/-- C2 (amended): under the NewestWins strategy, `AutoResolve` compares the
modification times and the strictly later one wins; when the times are
exactly equal the **remote** file wins (resolution keep-remote).  In both
winning cases the conflict is marked resolved, the resolution string is
recorded, and the conflict leaves the open set. -/
theorem C2_newest_wins (cfg : Config) (st : EngineState) (c : Conflict)
    (tsStr : String) (hstrat : cfg.GetConflictStrategy = .newest_wins) :
    (c.remoteFile.modTime < c.localFile.modTime →
      (AutoResolve cfg st c tsStr).1 = .keep_local
      ∧ (AutoResolve cfg st c tsStr).2
          = Except.ok
            ({ st with conflicts := aerase c.id st.conflicts },
             { c with resolution := "kept_local", resolved := true }))
    ∧ (c.localFile.modTime ≤ c.remoteFile.modTime →
      (AutoResolve cfg st c tsStr).1 = .keep_remote
      ∧ (AutoResolve cfg st c tsStr).2
          = Except.ok
            ({ st with conflicts := aerase c.id st.conflicts },
             { c with resolution := "kept_remote", resolved := true })) := by
  constructor
  · intro hlt
    simp only [AutoResolve, hstrat]
    rw [if_pos hlt]
    exact ⟨rfl, rfl⟩
  · intro hle
    simp only [AutoResolve, hstrat]
    rw [if_neg (not_lt.mpr hle)]
    exact ⟨rfl, rfl⟩

/-- Closed instantiation of `C2_newest_wins` at the equal-times conflict. -/
theorem C2_newest_wins_witness :
    (AutoResolve cfgNW stC cW "ts").1 = ConflictResolution.keep_remote := by
  have h := C2_newest_wins cfgNW stC cW "ts" rfl
  exact (h.2 (by decide)).1

/-! ## Theorems: C10 — conflict resolution clears the open set -/

/-- C10: for every conflict in the open set and every resolution among
keep-local, keep-remote, keep-both and skip, a `ResolveConflict` call that
returns without error marks the conflict resolved, records the resolution
string, and removes the conflict from the open set: `GetConflict` on its id
finds nothing and no element of `GetConflicts` carries its id (skip
included). -/
theorem C10_resolve_conflict (cfg : Config) (st : EngineState) (c : Conflict)
    (res : ConflictResolution) (tsStr : String)
    (_hopen : alookup c.id st.conflicts = some c)
    (hnd : (st.conflicts.map Prod.fst).Nodup)
    (hids : ∀ e ∈ st.conflicts, e.1 = e.2.id) :
    ∀ st' c', ResolveConflict cfg st c res tsStr = .ok (st', c') →
      c'.resolved = true
      ∧ c'.resolution = resolutionString res
      ∧ GetConflict st' c.id = none
      ∧ ∀ x ∈ GetConflicts st', x.id ≠ c.id := by
  have hga : alookup c.id (aerase c.id st.conflicts) = none :=
    alookup_aerase_self c.id st.conflicts hnd
  have hgc : ∀ x ∈ (aerase c.id st.conflicts).map (fun e => e.2),
      x.id ≠ c.id := by
    intro x hx
    rcases List.mem_map.mp hx with ⟨e, he, hex⟩
    have h1 := key_ne_of_mem_aerase hnd he
    have h2 := hids e (mem_aerase he)
    rw [← hex, ← h2]
    exact h1
  intro st' c' h
  cases res with
  | keep_local =>
    simp only [ResolveConflict, Except.ok.injEq, Prod.mk.injEq] at h
    obtain ⟨h1, h2⟩ := h
    subst h1; subst h2
    exact ⟨rfl, rfl, hga, hgc⟩
  | keep_remote =>
    simp only [ResolveConflict, Except.ok.injEq, Prod.mk.injEq] at h
    obtain ⟨h1, h2⟩ := h
    subst h1; subst h2
    exact ⟨rfl, rfl, hga, hgc⟩
  | keep_both =>
    simp only [ResolveConflict] at h
    cases hfs : alookup (filepathJoin c.folderPath c.relPath) st.fs with
    | none =>
      rw [hfs] at h
      exact absurd h (by simp)
    | some f =>
      rw [hfs] at h
      simp only [Except.ok.injEq, Prod.mk.injEq] at h
      obtain ⟨h1, h2⟩ := h
      subst h1; subst h2
      exact ⟨rfl, rfl, hga, hgc⟩
  | skip =>
    simp only [ResolveConflict, Except.ok.injEq, Prod.mk.injEq] at h
    obtain ⟨h1, h2⟩ := h
    subst h1; subst h2
    exact ⟨rfl, rfl, hga, hgc⟩

/-- Closed instantiation of `C10_resolve_conflict` at the skip resolution. -/
theorem C10_resolve_conflict_witness :
    ({ cW with resolution := "skipped", resolved := true } : Conflict).resolved
        = true
    ∧ GetConflict { stC with conflicts := aerase cW.id stC.conflicts } cW.id
        = none := by
  have h := C10_resolve_conflict cfgNW stC cW .skip "ts" rfl (by decide)
    (by decide)
  have h2 := h { stC with conflicts := aerase cW.id stC.conflicts }
    { cW with resolution := "skipped", resolved := true } rfl
  exact ⟨h2.1, h2.2.2.1⟩

/-! ## Theorems: C5 — delete of an already absent file -/

/-- C5 counterexample: an incoming FileDelete for an already absent file is
**not** free of observable effect: in the concrete state (folder tracked,
disk empty), the state store changes (`RemoveFileState` stamps the folder's
UpdatedAt with the current time) and a "deleted" activity entry is
appended. -/
theorem C5_counterexample :
    (handleRemoteDelete cfgC5 st5 5 del0 "Beta").state ≠ st5.state
    ∧ (handleRemoteDelete cfgC5 st5 5 del0 "Beta").activities.length
        = st5.activities.length + 1 := by
  constructor <;> decide

/-- C5 (amended): applying an incoming FileDelete when the local file is
absent and no baseline record exists for it does not error and deletes
nothing — the disk is unchanged, every `GetFileState` answer is unchanged,
and the conflict set is untouched — but the handler is not a complete no-op:
it stamps the tracked folder's UpdatedAt with the current time and appends a
"deleted" activity entry. -/
theorem C5_delete_idempotent (cfg : Config) (st : EngineState) (now : Int)
    (del : FileDeleteMessage) (peerName : String)
    (hrecv : cfg.CanReceive = true)
    (hmap : findLocalFolderByName cfg del.folderName ≠ "")
    (habsent : alookup
        (filepathJoin (findLocalFolderByName cfg del.folderName) del.relPath)
        st.fs = none)
    (hnorec : StateStore.GetFileState st.state
        (findLocalFolderByName cfg del.folderName) del.relPath = none) :
    (handleRemoteDelete cfg st now del peerName).fs = st.fs
    ∧ (∀ fp rp, StateStore.GetFileState
          (handleRemoteDelete cfg st now del peerName).state fp rp
        = StateStore.GetFileState st.state fp rp)
    ∧ (handleRemoteDelete cfg st now del peerName).conflicts = st.conflicts
    ∧ (handleRemoteDelete cfg st now del peerName).activities
        = ({ type := "deleted", fileName := filepathBase del.relPath,
             folderPath := findLocalFolderByName cfg del.folderName,
             relPath := del.relPath, peerName := peerName,
             timestamp := now } :: st.activities).take 100
    ∧ (∀ fs0, alookup (findLocalFolderByName cfg del.folderName)
          st.state.folders = some fs0 →
        alookup (findLocalFolderByName cfg del.folderName)
          (handleRemoteDelete cfg st now del peerName).state.folders
          = some { fs0 with updatedAt := now }) := by
  have hres : handleRemoteDelete cfg st now del peerName
      = Engine.addActivity
          { st with
            fs := aerase (filepathJoin
              (findLocalFolderByName cfg del.folderName) del.relPath) st.fs,
            state := (StateStore.RemoveFileState st.state
              (findLocalFolderByName cfg del.folderName) del.relPath now) }
          { type := "deleted", fileName := filepathBase del.relPath,
            folderPath := findLocalFolderByName cfg del.folderName,
            relPath := del.relPath, peerName := peerName,
            timestamp := now } := by
    simp [handleRemoteDelete, hrecv, hmap]
  rw [hres]
  refine ⟨?_, ?_, rfl, rfl, ?_⟩
  · exact aerase_of_alookup_none _ _ habsent
  · intro fp rp
    show StateStore.GetFileState (StateStore.RemoveFileState st.state
      (findLocalFolderByName cfg del.folderName) del.relPath now) fp rp
      = StateStore.GetFileState st.state fp rp
    cases hfold : alookup (findLocalFolderByName cfg del.folderName)
        st.state.folders with
    | none => simp only [StateStore.RemoveFileState, hfold]
    | some fs0 =>
      have hrec : alookup del.relPath fs0.files = none := by
        simp only [StateStore.GetFileState, hfold] at hnorec
        exact hnorec
      simp only [StateStore.RemoveFileState, hfold,
        aerase_of_alookup_none _ _ hrec]
      by_cases hfp : fp = findLocalFolderByName cfg del.folderName
      · subst hfp
        simp only [StateStore.GetFileState, alookup_aupdate_self, hfold]
      · simp only [StateStore.GetFileState,
          alookup_aupdate_ne _ _ _ _ hfp]
  · intro fs0 hfold
    have hrec : alookup del.relPath fs0.files = none := by
      simp only [StateStore.GetFileState, hfold] at hnorec
      exact hnorec
    show alookup _ (StateStore.RemoveFileState st.state
        (findLocalFolderByName cfg del.folderName) del.relPath now).folders
      = _
    simp only [StateStore.RemoveFileState, hfold,
      aerase_of_alookup_none _ _ hrec]
    exact alookup_aupdate_self ..

/-- Closed instantiation of `C5_delete_idempotent`: both disk and baseline
lack the record. -/
theorem C5_delete_idempotent_witness :
    (handleRemoteDelete cfgC5 st5 5 del0 "Beta").fs = st5.fs
    ∧ StateStore.GetFileState
        (handleRemoteDelete cfgC5 st5 5 del0 "Beta").state "Sync" "r"
      = StateStore.GetFileState st5.state "Sync" "r" := by
  have h := C5_delete_idempotent cfgC5 st5 5 del0 "Beta" (by decide)
    (by decide) (by decide) (by decide)
  exact ⟨h.1, h.2.1 "Sync" "r"⟩

/-! ## Theorems: C6 — hash equality is a no-op -/

/-- In one file-list loop iteration, a local file whose hash equals the
remote hash produces no message and no state change. -/
theorem handleFileListEntry_hash_eq (hashFn : List Nat → String)
    (cfg : Config) (st : EngineState) (now : Int) (tsStr : String)
    (fileList : FileListMessage) (localFolderPath : String)
    (remoteFile : FileInfoMsg) (peerName : String) (f : DiskFile)
    (hlook : alookup (filepathJoin localFolderPath remoteFile.relPath) st.fs
      = some f)
    (hhash : hashFn f.data = remoteFile.hash) :
    handleFileListEntry hashFn cfg st now tsStr fileList localFolderPath
      remoteFile peerName = (st, []) := by
  simp [handleFileListEntry, hlook, hhash]

/-- C6: if, for every entry the FileList carries, the local file exists and
its hash equals the carried hash, then processing the FileList produces zero
outgoing messages (in particular no FileRequest) and leaves the engine state
— disk, store, conflicts, activities — unchanged. -/
theorem C6_hash_equality_noop (hashFn : List Nat → String) (cfg : Config)
    (st : EngineState) (now : Int) (tsStr : String)
    (fileList : FileListMessage) (peerName : String)
    (hall : ∀ rf ∈ fileList.files, ∃ f,
      alookup (filepathJoin (findLocalFolderByName cfg fileList.folderName)
        rf.relPath) st.fs = some f
      ∧ hashFn f.data = rf.hash) :
    handleFileList hashFn cfg st now tsStr fileList peerName = (st, []) := by
  by_cases hmapnil : findLocalFolderByName cfg fileList.folderName = ""
  · simp [handleFileList, hmapnil]
  · by_cases hrecv : cfg.CanReceive
    · have hentry : ∀ rf ∈ fileList.files,
          handleFileListEntry hashFn cfg st now tsStr fileList
            (findLocalFolderByName cfg fileList.folderName) rf peerName
          = (st, []) := by
        intro rf hrf
        obtain ⟨f, hlook, hhash⟩ := hall rf hrf
        exact handleFileListEntry_hash_eq hashFn cfg st now tsStr fileList _
          rf peerName f hlook hhash
      have aux : ∀ (files : List FileInfoMsg),
          (∀ rf ∈ files,
            handleFileListEntry hashFn cfg st now tsStr fileList
              (findLocalFolderByName cfg fileList.folderName) rf peerName
            = (st, [])) →
          ∀ msgs : List OutMsg,
          files.foldl
            (fun acc remoteFile =>
              let step := handleFileListEntry hashFn cfg acc.1 now tsStr
                fileList (findLocalFolderByName cfg fileList.folderName)
                remoteFile peerName
              (step.1, acc.2 ++ step.2))
            (st, msgs) = (st, msgs) := by
        intro files
        induction files with
        | nil => intro _ msgs; rfl
        | cons rf rest ih =>
          intro hf msgs
          have h0 := hf rf (List.mem_cons_self rf rest)
          simp only [List.foldl_cons, h0, List.append_nil]
          exact ih (fun x hx => hf x (List.mem_cons_of_mem rf hx)) msgs
      simp only [handleFileList, if_neg hmapnil, hrecv, Bool.not_true,
        Bool.false_eq_true, if_false]
      exact aux fileList.files hentry []
    · simp only [Bool.not_eq_true] at hrecv
      simp [handleFileList, hmapnil, hrecv]

/-- Closed instantiation of `C6_hash_equality_noop` at a one-entry list. -/
theorem C6_hash_equality_noop_witness :
    handleFileList (fun _ => "H1") cfgC5 st6 0 "ts" fl6 "Beta"
      = (st6, []) := by
  refine C6_hash_equality_noop (fun _ => "H1") cfgC5 st6 0 "ts" fl6 "Beta" ?_
  intro rf hrf
  rcases List.mem_singleton.mp hrf with rfl
  exact ⟨file0, by decide, by decide⟩

/-! ## Theorems: C7 — direction policy enforcement -/

/-- C7: with direction send_only, an incoming FileData is dropped with no
file written, no directory created and no state change of any kind; with
direction receive_only, a local Create/Modify event emits no FileData to
anyone (and changes nothing). -/
theorem C7_direction_policy (hashFn : List Nat → String) (cfg : Config)
    (st : EngineState) (now : Int) (fileData : FileDataMessage)
    (event : FileEvent) (peerName : String) :
    (cfg.syncDirection = "send_only" →
      handleFileData cfg st now fileData peerName = st)
    ∧ (cfg.syncDirection = "receive_only" →
      handleFileChange hashFn cfg st now event = (st, [])) := by
  constructor
  · intro h
    have hdir : cfg.GetSyncDirection = .send_only := by
      unfold Config.GetSyncDirection
      rw [h]
      rfl
    have hcr : cfg.CanReceive = false := by
      unfold Config.CanReceive
      rw [hdir]
      rfl
    simp [handleFileData, hcr]
  · intro h
    have hdir : cfg.GetSyncDirection = .receive_only := by
      unfold Config.GetSyncDirection
      rw [h]
      rfl
    have hcs : cfg.CanSend = false := by
      unfold Config.CanSend
      rw [hdir]
      rfl
    simp [handleFileChange, hcs]

/-- Closed instantiation of `C7_direction_policy` under send-only and
receive-only configurations. -/
theorem C7_direction_policy_witness :
    handleFileData cfgSend st5 0 fd0 "Beta" = st5
    ∧ handleFileChange (fun _ => "H") cfgRecv st6 0 ev0 = (st6, []) := by
  have h1 := C7_direction_policy (fun _ => "H") cfgSend st5 0 fd0 ev0 "Beta"
  have h2 := C7_direction_policy (fun _ => "H") cfgRecv st6 0 fd0 ev0 "Beta"
  exact ⟨h1.1 rfl, h2.2 rfl⟩

/-! ## Theorems: C9 — peer aging in the health loop -/

/-- C9: on a health-loop tick, every non-manual peer last seen more than 120
seconds ago is removed from the registry and onPeerLost fires exactly once
for it, while a manual peer survives the tick no matter how stale it is (and
onPeerLost never fires for it). -/
theorem healthCheckTick_cons (now : Int) (hd : String × Peer)
    (tl : List (String × Peer)) :
    healthCheckTick now (hd :: tl)
      = (if peerStale now hd.2 then (healthCheckTick now tl).1
         else hd :: (healthCheckTick now tl).1,
         if peerStale now hd.2 then hd :: (healthCheckTick now tl).2
         else (healthCheckTick now tl).2) := by
  by_cases h : peerStale now hd.2 <;>
    simp [healthCheckTick, List.filter_cons, h]

theorem C9_peer_aging (now : Int) (peers : List (String × Peer))
    (id : String) (p : Peer)
    (hnd : (peers.map Prod.fst).Nodup) (hmem : (id, p) ∈ peers) :
    (p.manual = true →
      (id, p) ∈ (healthCheckTick now peers).1
      ∧ (healthCheckTick now peers).2.filter (fun e => e.1 == id) = [])
    ∧ (p.manual = false → 120 < now - p.lastSeen →
      (healthCheckTick now peers).1.filter (fun e => e.1 == id) = []
      ∧ ((healthCheckTick now peers).2.filter (fun e => e.1 == id)).length
          = 1) := by
  induction peers with
  | nil => cases hmem
  | cons hd tl ih =>
    simp only [List.map_cons, List.nodup_cons] at hnd
    rw [healthCheckTick_cons]
    rcases List.mem_cons.mp hmem with heq | hmem'
    · have hdid : hd = (id, p) := heq.symm
      subst hdid
      have hnotin : id ∉ tl.map Prod.fst := hnd.1
      have hk1 : List.filter (fun e => e.1 == id)
          (healthCheckTick now tl).1 = [] :=
        filter_key_eq_nil tl id hnotin _
      have hk2 : List.filter (fun e => e.1 == id)
          (healthCheckTick now tl).2 = [] :=
        filter_key_eq_nil tl id hnotin _
      constructor
      · intro hman
        have hstale : peerStale now p = false := by simp [peerStale, hman]
        simp [hstale, List.filter_cons, hk2]
      · intro hman htime
        have hstale : peerStale now p = true := by
          simp [peerStale, hman, htime]
        simp [hstale, List.filter_cons, hk1, hk2]
    · have hne : hd.1 ≠ id := by
        intro hh
        exact hnd.1 (hh ▸ List.mem_map_of_mem Prod.fst hmem')
      have hbeq : (hd.1 == id) = false := by
        simp only [beq_eq_false_iff_ne, ne_eq]
        exact hne
      have ihh := ih hnd.2 hmem'
      constructor
      · intro hman
        obtain ⟨ih1, ih2⟩ := ihh.1 hman
        by_cases hsh : peerStale now hd.2
        · simp [hsh, hbeq, List.filter_cons, ih1, ih2]
        · simp [hsh, hbeq, List.filter_cons, ih1, ih2]
      · intro hman htime
        obtain ⟨ih1, ih2⟩ := ihh.2 hman htime
        by_cases hsh : peerStale now hd.2
        · simp [hsh, hbeq, List.filter_cons, ih1, ih2]
        · simp [hsh, hbeq, List.filter_cons, ih1, ih2]

/-- Closed instantiation of `C9_peer_aging`: at time 200, the stale
non-manual peer is lost exactly once and the equally stale manual peer
survives. -/
theorem C9_peer_aging_witness :
    ("manual-a:1", pm) ∈ (healthCheckTick 200 peers9).1
    ∧ ((healthCheckTick 200 peers9).2.filter (fun e => e.1 == "b")).length
        = 1 := by
  have h1 := C9_peer_aging 200 peers9 "manual-a:1" pm (by decide)
    (by decide)
  have h2 := C9_peer_aging 200 peers9 "b" pb (by decide) (by decide)
  exact ⟨(h1.1 rfl).1, (h2.2 rfl (by decide)).2⟩

end MPS
